import Mathlib

/-!
Verification of the SAIA single-atom image analysis core.

This file gives a shallow embedding, in Lean 4, of the algorithmic core of
the repository:

* `directoryWatcher.py` — the file-arrival synchronisation helpers
  `wait_for_file` and `sync_dexter` of `system_event_handler`;
* `imageHandler.py` — the `image_handler` class: growable parallel arrays
  of per-image measurements, ROI extraction and background statistics,
  histogram building, peak-based threshold estimation and the fidelity
  search.

Modelling conventions:

* Python floats are modelled as rationals (`ℚ`); the claims under study are
  about exact arithmetic relations (sums, means, floor division,
  comparisons), not about rounding of IEEE floats.
* numpy arrays become `List`s.  Assigning `arr[i] = v` raises `IndexError`
  in numpy when `i` is out of range; a write is therefore modelled as an
  `Option`-valued update that is `none` out of range, and a method that can
  raise is `Option`-valued.
* External library calls that the repository merely invokes are parameters
  of the embedding: `scipy.signal.find_peaks` (an oracle fed to the
  repository's `est_param` loop), `scipy.stats.norm.cdf` and `np.around`
  (oracles fed to `get_fidelity` / `search_fidelity`).  `np.histogram` is
  modelled directly from its documented semantics since its behaviour is
  simple and deterministic.
* File input is modelled by handing a method the already-parsed numeric
  grid of the image file (`List (List ℚ)`), and the OS calls of the watcher
  (`os.path.getsize`, reads of the Dexter sync file) by the trace of values
  those calls return.
-/

namespace SAIA

/-! ## directoryWatcher.py: system_event_handler.wait_for_file

The source:

    def wait_for_file(self, file_name, dt=0.01):
        last_file_size = -1
        while last_file_size != os.path.getsize(file_name):
            last_file_size = os.path.getsize(file_name)
            time.sleep(dt)

Each loop iteration calls `os.path.getsize` twice: once in the `while`
condition and once in the body.  We model the successive return values of
`os.path.getsize` as a list `sizes : List ℤ` and compute the number of
reads consumed before the loop exits; `none` means the loop was still
running when the supplied trace of readings ran out. -/

def waitLoop (last : ℤ) : List ℤ → Option ℕ
  | [] => none
  | [r1] => if r1 = last then some 1 else none
  | r1 :: r2 :: rest2 =>
    if r1 = last then some 1 else (waitLoop r2 rest2).map (· + 2)

def wait_for_file (sizes : List ℤ) : Option ℕ :=
  waitLoop (-1) sizes

/-! ## directoryWatcher.py: system_event_handler.sync_dexter

The source:

    def sync_dexter(self, dt=1e-3):
        new_dfn = ''
        while new_dfn == '':
            with open(self.dexter_sync_file_name, 'r') as sync_file:
                new_dfn = sync_file.read()
            if new_dfn != '':
                if self.dfn != str(int(new_dfn)):
                    self.dfn = str(int(new_dfn))
                else:
                    self.dfn = str(int(new_dfn)+1)
                break
            time.sleep(dt)

`self.dfn` is stored as a string.  A read of the sync file is modelled as
`Option ℤ`: `none` for empty content (Dexter mid-write, retry) and
`some v` for content parsing to the integer `v`.  The function returns the
new `self.dfn`, or `none` if every read in the trace was empty. -/

def sync_dexter (dfn : String) : List (Option ℤ) → Option String
  | [] => none
  | none :: rest => sync_dexter dfn rest
  | some v :: _ =>
    if dfn ≠ toString v then some (toString v) else some (toString (v + 1))

/-! ### Helper lemmas for the watcher -/

/-- Termination shape of the polling loop: if `waitLoop last sizes` exits
having consumed `k` reads, then either it exited immediately (`k = 1`,
the first read equals `last`), or `k` is an odd number at least 3, at most
the trace length, and the `k`-th read (a condition read) equals the
`(k-1)`-th read (the preceding body read). -/
theorem waitLoop_some_spec :
    ∀ (n : ℕ) (sizes : List ℤ), sizes.length ≤ n → ∀ (last : ℤ) (k : ℕ),
      waitLoop last sizes = some k →
      (k = 1 ∧ sizes[0]? = some last) ∨
      (3 ≤ k ∧ k % 2 = 1 ∧ k ≤ sizes.length ∧
        sizes[k - 1]? = sizes[k - 2]? ∧ (sizes[k - 1]?).isSome) := by
  intro n
  induction n with
  | zero =>
    intro sizes hlen last k h
    have : sizes = [] := List.length_eq_zero.mp (Nat.le_zero.mp hlen)
    subst this
    simp [waitLoop] at h
  | succ n ih =>
    intro sizes hlen last k h
    match sizes with
    | [] => simp [waitLoop] at h
    | [r1] =>
      simp only [waitLoop] at h
      by_cases h1 : r1 = last
      · rw [if_pos h1] at h
        have hk : k = 1 := (Option.some.inj h).symm
        left
        subst hk
        simp [h1]
      · rw [if_neg h1] at h
        exact absurd h (by simp)
    | r1 :: r2 :: rest2 =>
      simp only [waitLoop] at h
      by_cases h1 : r1 = last
      · rw [if_pos h1] at h
        have hk : k = 1 := (Option.some.inj h).symm
        left
        subst hk
        simp [h1]
      · rw [if_neg h1] at h
        · simp only [Option.map_eq_some'] at h
          obtain ⟨k', hk', hkk⟩ := h
          have hlen2 : rest2.length ≤ n := by
            simp at hlen; omega
          have := ih rest2 hlen2 r2 k' hk'
          rcases this with ⟨hk1, hget⟩ | ⟨h3, hodd, hle, heq, hsome⟩
          · right
            subst hk1
            refine ⟨by omega, by omega, ?_, ?_, ?_⟩
            · have : rest2 ≠ [] := by
                intro hnil; subst hnil; simp at hget
              have : 1 ≤ rest2.length := by
                cases rest2 with
                | nil => simp_all
                | cons a l => simp
              simp; omega
            · subst hkk
              simpa using hget
            · subst hkk
              simp [hget]
          · right
            refine ⟨by omega, by omega, by simp; omega, ?_, ?_⟩
            · subst hkk
              have e1 : k' + 2 - 1 = (k' - 1) + 2 := by omega
              have e2 : k' + 2 - 2 = (k' - 2) + 2 := by omega
              rw [e1, e2]
              simpa using heq
            · subst hkk
              have e1 : k' + 2 - 1 = (k' - 1) + 2 := by omega
              rw [e1]
              simpa using hsome

/-! ### Claim C8 -/

/-- Claim C8 (confirmed): when the counter file's first non-empty read
parses to the integer `v`, `sync_dexter` resolves the sequence number to
`v + 1` if the previously synchronised file number equals `v` (collision
avoidance), and to `v` otherwise.  In particular, reading `42` when the
previous value was `42` resolves to `43`, while a previous value of `41`
resolves to `42`. -/
theorem claim_C8_sync_dexter_collision_increment :
    (∀ (dfn : String) (v : ℤ) (rest : List (Option ℤ)),
        sync_dexter dfn (some v :: rest) =
          some (if dfn = toString v then toString (v + 1) else toString v)) ∧
    sync_dexter "42" [some 42] = some "43" ∧
    sync_dexter "41" [some 42] = some "42" := by
  refine ⟨?_, by decide, by decide⟩
  intro dfn v rest
  by_cases h : dfn = toString v
  · simp [sync_dexter, h]
  · simp [sync_dexter, h]

/-! ### Claim C9 -/

/-- Claim C9 counterexample: the claim predicts that `wait_for_file`
terminates at the first size reading that equals its immediate predecessor
and in particular that the reading sequence `[100, 100]` makes it return
after exactly two reads.  In the source, however, each `while` iteration
calls `os.path.getsize` twice (once in the condition, once in the body), so
after consuming both readings `100, 100` the loop is still waiting for a
third reading: it does not return after two reads. -/
theorem claim_C9_counterexample :
    wait_for_file [100, 100] = none ∧ wait_for_file [100, 100] ≠ some 2 := by
  exact ⟨by decide, by decide⟩

/-- Claim C9 (amended): `wait_for_file` consumes its size readings two per
loop iteration (one in the `while` condition, one in the body).  Whenever it
terminates on a trace of genuine (non-negative) file sizes, the number `k`
of consumed reads is odd and at least 3, and the final (condition) read
equals the immediately preceding (body) read.  The trace `[100, 150, 150]`
takes exactly three reads, as the claim says, but a file whose size is
stable at once needs the trace `[100, 100, 100]` — also three reads, never
two. -/
theorem claim_C9_wait_polls_twice_per_iteration :
    (∀ (sizes : List ℤ) (k : ℕ), (∀ x ∈ sizes, 0 ≤ x) →
        wait_for_file sizes = some k →
        3 ≤ k ∧ k % 2 = 1 ∧ k ≤ sizes.length ∧
          sizes[k - 1]? = sizes[k - 2]?) ∧
    wait_for_file [100, 150, 150] = some 3 ∧
    wait_for_file [100, 100, 100] = some 3 := by
  refine ⟨?_, by decide, by decide⟩
  intro sizes k hpos hw
  have h := waitLoop_some_spec sizes.length sizes le_rfl (-1) k hw
  rcases h with ⟨hk1, hget⟩ | ⟨h3, hodd, hle, heq, _⟩
  · exfalso
    have hmem : (-1 : ℤ) ∈ sizes := by
      have := List.getElem?_mem hget
      exact this
    have := hpos _ hmem
    omega
  · exact ⟨h3, hodd, hle, heq⟩

/-- Witness for the amended claim C9, instantiated on the spec's own
scenario trace `[100, 150, 150]`. -/
theorem claim_C9_witness :
    3 ≤ 3 ∧ 3 % 2 = 1 ∧ 3 ≤ ([100, 150, 150] : List ℤ).length ∧
      ([100, 150, 150] : List ℤ)[3 - 1]? = ([100, 150, 150] : List ℤ)[3 - 2]? :=
  claim_C9_wait_polls_twice_per_iteration.1 [100, 150, 150] 3 (by decide)
    (by decide)

/-! ## imageHandler.py: Python/numpy preliminaries -/

/-- Normalisation of a Python slice endpoint for a sequence of length `L`:
a non-negative index is clamped to at most `L`, a negative index counts
from the end of the sequence and is clamped to at least 0. -/
def pyIdx (L : ℕ) (i : ℤ) : ℕ :=
  min (if i < 0 then i + L else i).toNat L

/-- Python/numpy slice `xs[a:b]` (step 1). -/
def pySlice {α : Type} (xs : List α) (a b : ℤ) : List α :=
  (xs.drop (pyIdx xs.length a)).take (pyIdx xs.length b - pyIdx xs.length a)

/-- The sum `np.sum` of a 2-D array. -/
def npSum (m : List (List ℚ)) : ℚ := m.flatten.sum

/-- The element count `np.size` of a 2-D array. -/
def npSize (m : List (List ℚ)) : ℕ := m.flatten.length

/-- The maximum `np.max` of a 2-D array (numpy raises on an empty array;
the code only applies it to non-empty images, where this equals numpy's
result). -/
def npMax (m : List (List ℚ)) : ℚ :=
  match m.flatten with
  | [] => 0
  | x :: xs => xs.foldl max x

/-- Index of the first occurrence of `t` in a row, starting the count at
`j`. -/
def findInRow (t : ℚ) : ℕ → List ℚ → Option ℕ
  | _, [] => none
  | j, v :: vs => if v = t then some j else findInRow t (j + 1) vs

/-- Row-major first position of the value `t` in a 2-D array.  `add_count`
runs `np.where(full_im == np.max(full_im))` and keeps the first listed
position (both with a unique maximum and in the `ValueError` handler for
repeated maxima), which is exactly the row-major first match. -/
def findInMat (t : ℚ) : ℕ → List (List ℚ) → ℕ × ℕ
  | _, [] => (0, 0)
  | i, row :: rows =>
    match findInRow t 0 row with
    | some j => (i, j)
    | none => findInMat t (i + 1) rows

/-- The grid `np.linspace p1 p2 n`: `n` equally spaced points from `p1` to
`p2`, both endpoints included, as numpy computes it. -/
def linspace (p1 p2 : ℚ) (n : ℕ) : List ℚ :=
  if n = 1 then [p1]
  else (List.range n).map fun (i : ℕ) =>
    p1 + (p2 - p1) * (i : ℚ) / ((n : ℚ) - 1)

/-- Zeroing of the slice `row[a:b]` for already `pyIdx`-normalised bounds
`a`, `b`: models the numpy row part of the slice assignment that builds
`not_roi`. -/
def zeroRow (a b : ℕ) (row : List ℚ) : List ℚ :=
  row.take a ++ List.replicate (b - a) (0 : ℚ) ++ row.drop (max a b)

/-- The 2-D slice assignment `m[r0:r1, c0:c1] = 0` on the image `m`. -/
def zeroRegion (m : List (List ℚ)) (r0 r1 c0 c1 : ℤ) : List (List ℚ) :=
  let ra := pyIdx m.length r0
  let rb := pyIdx m.length r1
  m.take ra ++
    ((m.drop ra).take (rb - ra)).map
      (fun row => zeroRow (pyIdx row.length c0) (pyIdx row.length c1) row) ++
    m.drop (max ra rb)

/-- Minimum of a list (used by numpy auto binning on non-empty data). -/
def listMin : List ℚ → ℚ
  | [] => 0
  | x :: xs => xs.foldl min x

/-- Maximum of a list (used by numpy auto binning on non-empty data). -/
def listMax : List ℚ → ℚ
  | [] => 0
  | x :: xs => xs.foldl max x

/-- Occupancy counts of `np.histogram(data, bins=edges)`: every bin is
half-open except the last, which also contains its right edge. -/
def histCounts (data edges : List ℚ) : List ℕ :=
  let nb := edges.length - 1
  (List.range nb).map fun j =>
    (data.filter fun x =>
        decide (edges.getD j 0 ≤ x ∧
          (x < edges.getD (j + 1) 0 ∨
            (j = nb - 1 ∧ x = edges.getD (j + 1) 0)))).length

/-- The pair `np.histogram(data)` with the default ten auto bins, returning
`(occurrences, bin_edges)`.  Auto binning uses the documented numpy range
rules: range `(0, 1)` for empty data and `(lo - 0.5, hi + 0.5)` when all
values coincide. -/
def npHistogramAuto (data : List ℚ) : List ℕ × List ℚ :=
  match data with
  | [] => (List.replicate 10 0, linspace 0 1 11)
  | _ :: _ =>
    let lo := listMin data
    let hi := listMax data
    let lo2 := if lo = hi then lo - 1 / 2 else lo
    let hi2 := if lo = hi then hi + 1 / 2 else hi
    let edges := linspace lo2 hi2 11
    (histCounts data edges, edges)

/-! ## imageHandler.py: est_param and the image_handler state -/

/-- Result triple of a `scipy.signal.find_peaks` call: peak indices,
prominences and widths (in bin-index units). -/
structure PeakData where
  indexes : List ℕ
  prominences : List ℚ
  widths : List ℚ
deriving DecidableEq

/-- The `est_param` search loop of imageHandler.py.  The external call
`scipy.signal.find_peaks(h, width=0, distance=d)` is an oracle parameter
`fp`, applied to the occupancy array and the current minimal peak
separation `d`.  The Python loop runs `find_peaks` until at most two peaks
remain, increasing `d` by `inc = size // 500 * 5 + 1` after every try;
`fuel` bounds the number of tries, with `none` modelling a search that is
still looping when the bound runs out. -/
def est_param (fp : List ℕ → ℕ → PeakData) (h : List ℕ) :
    ℕ → ℕ → Option PeakData
  | 0, _ => none
  | fuel + 1, d =>
    let r := fp h d
    if 2 < r.indexes.length then
      est_param fp h fuel (d + (h.length / 500 * 5 + 1))
    else some r

/-- The mutable state of an `image_handler` instance (`__init__`).  Arrays
are lists whose length is the allocated capacity; `im_num` counts the
records written so far.  `std_count` stores the square of the value the
code stores: the code applies `np.sqrt`, which does not stay inside `ℚ`,
so claims about the standard deviation are settled on the radicand and the
square roots are compared through `Real.sqrt` in the theorems. -/
structure HState where
  n : ℕ
  counts : List ℚ
  max_count : List ℚ
  peak_indexes : List ℕ
  peak_heights : List ℚ
  peak_widths : List ℚ
  peak_counts : List ℚ
  fidelity : ℚ
  err_fidelity : ℚ
  mean_count : List ℚ
  std_count : List ℚ
  xc_list : List ℚ
  yc_list : List ℚ
  xc : ℤ
  yc : ℤ
  roi_size : ℤ
  pic_size : ℕ
  thresh : ℚ
  atom : List ℚ
  files : List (Option String)
  im_num : ℕ
  im_vals : List (List ℚ)
  bin_array : List ℚ
deriving DecidableEq

/-- `image_handler.__init__`. -/
def initHandler : HState where
  n := 10000
  counts := List.replicate 10000 0
  max_count := List.replicate 10000 0
  peak_indexes := [0, 0]
  peak_heights := [0, 0]
  peak_widths := [0, 0]
  peak_counts := [0, 0]
  fidelity := 0
  err_fidelity := 0
  mean_count := List.replicate 10000 0
  std_count := List.replicate 10000 0
  xc_list := List.replicate 10000 0
  yc_list := List.replicate 10000 0
  xc := 0
  yc := 0
  roi_size := 1
  pic_size := 512
  thresh := 1
  atom := List.replicate 10000 0
  files := List.replicate 10000 none
  im_num := 0
  im_vals := []
  bin_array := []

/-- `image_handler.set_pic_size`: number of columns of the first row of the
file minus the leading row-number column. -/
def set_pic_size (raw : List (List ℚ)) : ℕ :=
  (raw.headD []).length - 1

/-- `image_handler.load_full_im`: `np.loadtxt` with
`usecols=range(1, pic_size + 1)` drops the leading row-number column and
keeps `pic_size` columns; the file contents arrive as the already-parsed
grid `raw`. -/
def load_full_im (pic_size : ℕ) (raw : List (List ℚ)) : List (List ℚ) :=
  raw.map fun row => (row.drop 1).take pic_size

/-- Element assignment `arr[i] = v` on a numpy array: raises `IndexError`
(modelled as `none`) when `i` is out of range. -/
def setArr {α : Type} (xs : List α) (i : ℕ) (v : α) : Option (List α) :=
  if i < xs.length then some (xs.set i v) else none

/-- The ROI slice bounds chosen in `add_count`:
`[xc - size//2 : xc + size//2 + 1]` per axis for odd sizes (inclusive
upper bound, with Python floor division), `[xc - size//2 : xc + size//2]`
for even sizes. -/
def roiBounds (s : HState) : ℤ × ℤ × ℤ × ℤ :=
  let k := Int.fdiv s.roi_size 2
  if s.roi_size % 2 = 1 then
    (s.xc - k, s.xc + k + 1, s.yc - k, s.yc + k + 1)
  else
    (s.xc - k, s.xc + k, s.yc - k, s.yc + k)

/-- The ROI extraction `self.im_vals = full_im[r0:r1, c0:c1]` of
`add_count`, on the image parsed from `raw`. -/
def roiVals (s : HState) (raw : List (List ℚ)) : List (List ℚ) :=
  let full_im := load_full_im s.pic_size raw
  let b := roiBounds s
  (pySlice full_im b.1 b.2.1).map fun row => pySlice row b.2.2.1 b.2.2.2

/-- The background copy `not_roi` of `add_count`: the image with the ROI
rectangle zeroed out. -/
def notRoi (s : HState) (raw : List (List ℚ)) : List (List ℚ) :=
  let full_im := load_full_im s.pic_size raw
  let b := roiBounds s
  zeroRegion full_im b.1 b.2.1 b.2.2.1 b.2.2.2

/-- The pixel count `N = np.size(full_im) - np.size(self.im_vals)` of the
region outside the ROI. -/
def bgCount (s : HState) (raw : List (List ℚ)) : ℕ :=
  npSize (load_full_im s.pic_size raw) - npSize (roiVals s raw)

/-- The stored background mean `np.sum(not_roi) / N`. -/
def bgMean (s : HState) (raw : List (List ℚ)) : ℚ :=
  npSum (notRoi s raw) / (bgCount s raw : ℚ)

/-- The radicand of the stored background standard deviation
`np.sqrt(np.sum((not_roi[not_roi>0] - mean)**2) / (N - 1))`: the strictly
positive entries of `not_roi` enter the deviation sum, the divisor is
`N - 1`. -/
def bgStdSq (s : HState) (raw : List (List ℚ)) : ℚ :=
  (((notRoi s raw).flatten.filter fun v => decide (0 < v)).map
      fun v => (v - bgMean s raw) ^ 2).sum / ((bgCount s raw : ℚ) - 1)

/-- The stored signal `np.sum(self.im_vals)`. -/
def roiSum (s : HState) (raw : List (List ℚ)) : ℚ :=
  npSum (roiVals s raw)

/-- The stored file label `im_name.split("_")[-1].split(".")[0]`. -/
def fileLabel (im_name : String) : String :=
  (((im_name.splitOn "_").getLastD im_name).splitOn ".").headD ""

/-- `image_handler.add_count`: load the image, extract the ROI `im_vals`
and the zeroed-ROI copy `not_roi`, store the background statistics, the
ROI sum `counts`, the file label, the image maximum and its first
position, and advance `im_num`.  The result is `none` when an array write
raises `IndexError` (arrays exhausted).  The source assigns `self.im_vals`
before the array writes, so on an `IndexError` the Python object keeps the
new `im_vals`; the claims below only concern the successful result. -/
def add_count (im_name : String) (raw : List (List ℚ)) (s : HState) :
    Option HState :=
  let full_im := load_full_im s.pic_size raw
  let mx := npMax full_im
  let pos := findInMat mx 0 full_im
  (setArr s.mean_count s.im_num (bgMean s raw)).bind fun mc =>
  (setArr s.std_count s.im_num (bgStdSq s raw)).bind fun sc =>
  (setArr s.counts s.im_num (roiSum s raw)).bind fun cs =>
  (setArr s.files s.im_num (some (fileLabel im_name))).bind fun fs =>
  (setArr s.max_count s.im_num mx).bind fun mxs =>
  (setArr s.xc_list s.im_num (pos.1 : ℚ)).bind fun xl =>
  (setArr s.yc_list s.im_num (pos.2 : ℚ)).map fun yl =>
    { s with
      im_vals := roiVals s raw
      mean_count := mc
      std_count := sc
      counts := cs
      files := fs
      max_count := mxs
      xc_list := xl
      yc_list := yl
      im_num := s.im_num + 1 }

/-- The growth step of `process`: `np.append` a block of `n` zeros (`None`
for the labels) to every record array. -/
def growArrays (s : HState) : HState :=
  { s with
    counts := s.counts ++ List.replicate s.n 0
    max_count := s.max_count ++ List.replicate s.n 0
    mean_count := s.mean_count ++ List.replicate s.n 0
    std_count := s.std_count ++ List.replicate s.n 0
    xc_list := s.xc_list ++ List.replicate s.n 0
    yc_list := s.yc_list ++ List.replicate s.n 0
    atom := s.atom ++ List.replicate s.n 0
    files := s.files ++ List.replicate s.n none }

/-- `image_handler.process`: try `add_count`; on an `IndexError`, grow the
arrays when `im_num % (n - 10) == 0 and im_num > n / 2` (Python true
division, so the comparison is over ℚ) and retry once — a second
`IndexError` propagates, modelled as `none`. -/
def process (im_name : String) (raw : List (List ℚ)) (s : HState) :
    Option HState :=
  match add_count im_name raw s with
  | some s2 => some s2
  | none =>
    let s3 :=
      if s.im_num % (s.n - 10) = 0 ∧ (s.n : ℚ) / 2 < (s.im_num : ℚ) then
        growArrays s
      else s
    add_count im_name raw s3

/-- The classification update
`self.atom[:self.im_num] = self.counts[:self.im_num] // self.thresh` —
`//` is numpy floor division, not a boolean comparison.  Entries past
`im_num` keep their old values. -/
def atomUpdate (s : HState) : List ℚ :=
  ((s.counts.take s.im_num).map fun c => ((⌊c / s.thresh⌋ : ℤ) : ℚ)) ++
    s.atom.drop s.im_num

/-- `image_handler.get_fidelity` with an explicit threshold; `cdf t m w` is
the external `scipy.stats.norm.cdf(t, m, w)`.  The method reads only the
peak model and mutates nothing; with a peak-index list that does not have
exactly two entries it returns the sentinel pair `(-1, -1)`. -/
def get_fidelity (cdf : ℚ → ℚ → ℚ → ℚ) (s : HState) (thresh : ℚ) : ℚ × ℚ :=
  if s.peak_indexes.length = 2 then
    let p0 := s.peak_counts.getD 0 0
    let w0 := s.peak_widths.getD 0 0
    let p1 := s.peak_counts.getD 1 0
    let w1 := s.peak_widths.getD 1 0
    (cdf thresh p0 w0 - cdf thresh p1 w1,
      cdf thresh (p0 - w0) w0 - cdf thresh (p1 - w1) w1 -
        cdf thresh (p0 + w0) w0 + cdf thresh (p1 - w1) w1)
  else (-1, -1)

/-- One step of the scan in `search_fidelity`: keep the best fidelity seen
so far and move the threshold on a strict improvement. -/
def searchStep (cdf : ℚ → ℚ → ℚ → ℚ) (acc : ℚ × ℚ × HState) (t : ℚ) :
    ℚ × ℚ × HState :=
  let fr := get_fidelity cdf acc.2.2 t
  if acc.1 < fr.1 then (fr.1, fr.2, { acc.2.2 with thresh := t }) else acc

/-- `image_handler.search_fidelity`: scan the thresholds
`np.linspace p1 p2 n` (default `n = 10`), remembering the threshold of the
first strict maximum of the fidelity, starting from a best-so-far of 0;
`rnd` is the external `np.around(·, 4)`. -/
def search_fidelity (cdf : ℚ → ℚ → ℚ → ℚ) (rnd : ℚ → ℚ) (s : HState)
    (p1 p2 : ℚ) (n : ℕ) : HState :=
  let r := (linspace p1 p2 n).foldl (searchStep cdf) (0, 0, s)
  { r.2.2 with fidelity := rnd r.1, err_fidelity := rnd r.2.1 }

/-- `image_handler.histogram`: bin the first `im_num` counts (fixed bins
when `bin_array` is non-empty, numpy auto binning otherwise), run the
`est_param` peak search on the occupancies, store peak positions in count
units, convert the two peak widths from bin-index units to count units
when exactly two peaks were found, refresh `atom` — and leave `thresh`
alone.  Returns the updated state together with `(bins, occ, thresh)`. -/
def histogram (fp : List ℕ → ℕ → PeakData) (fuel : ℕ) (s : HState) :
    Option (HState × List ℚ × List ℕ × ℚ) :=
  let data := s.counts.take s.im_num
  let oc :=
    if 0 < s.bin_array.length then (histCounts data s.bin_array, s.bin_array)
    else npHistogramAuto data
  (est_param fp oc.1 fuel 1).map fun pd =>
    let w := oc.2.getD 1 0 - oc.2.getD 0 0
    let pcs := pd.indexes.map fun i => oc.2.getD i 0 + w / 2
    let pws :=
      if pd.indexes.length = 2 then
        [w * pd.widths.getD 0 0 / 2, w * pd.widths.getD 1 0 / 2]
      else pd.widths
    let s1 :=
      { s with
        peak_indexes := pd.indexes
        peak_heights := pd.prominences
        peak_widths := pws
        peak_counts := pcs }
    let s2 := { s1 with atom := atomUpdate s1 }
    (s2, oc.2, oc.1, s2.thresh)

/-- `image_handler.hist_and_thresh`: build the histogram; when the peak
search produced exactly two peaks, set `thresh` five widths above the
background peak and refine it with `search_fidelity` between the two peak
positions; finally refresh `atom` against the (possibly new) threshold. -/
def hist_and_thresh (cdf : ℚ → ℚ → ℚ → ℚ) (rnd : ℚ → ℚ)
    (fp : List ℕ → ℕ → PeakData) (fuel : ℕ) (s : HState) :
    Option (HState × List ℚ × List ℕ × ℚ) :=
  (histogram fp fuel s).map fun r =>
    let s1 := r.1
    let s2 :=
      if s1.peak_indexes.length = 2 then
        search_fidelity cdf rnd
          { s1 with
            thresh := s1.peak_counts.getD 0 0 + 5 * s1.peak_widths.getD 0 0 }
          (s1.peak_counts.getD 0 0) (s1.peak_counts.getD 1 0) 10
      else s1
    let s3 := { s2 with atom := atomUpdate s2 }
    (s3, r.2.1, r.2.2.1, s3.thresh)

/-! ## Helper lemmas on the embedded image handler -/

theorem setArr_eq_some {α : Type} {xs : List α} {i : ℕ} {v : α} {ys : List α}
    (h : setArr xs i v = some ys) : i < xs.length ∧ ys = xs.set i v := by
  unfold setArr at h
  split at h
  · exact ⟨by assumption, (Option.some.inj h).symm⟩
  · exact absurd h (by simp)

theorem setArr_none {α : Type} {xs : List α} {i : ℕ} (hlen : xs.length ≤ i)
    (v : α) : setArr xs i v = none := by
  unfold setArr
  rw [if_neg (by omega)]

/-- A successful `add_count` never touches the threshold, the peak model,
the classification array, the configuration fields or the capacity; it
advances `im_num` by one. -/
theorem add_count_some_fields {im_name : String} {raw : List (List ℚ)}
    {s s2 : HState} (h : add_count im_name raw s = some s2) :
    s2.thresh = s.thresh ∧ s2.n = s.n ∧ s2.bin_array = s.bin_array ∧
    s2.im_num = s.im_num + 1 ∧ s2.peak_indexes = s.peak_indexes ∧
    s2.atom = s.atom := by
  simp only [add_count, Option.bind_eq_some, Option.map_eq_some'] at h
  obtain ⟨mc, hmc, sc, hsc, cs, hcs, fs, hfs, mxs, hmxs, xl, hxl, yl, hyl, hs2⟩ := h
  subst hs2
  exact ⟨rfl, rfl, rfl, rfl, rfl, rfl⟩

/-- The values a successful `add_count` writes at index `im_num` of the
record arrays, and the in-range facts the writes certify. -/
theorem add_count_some_stored {im_name : String} {raw : List (List ℚ)}
    {s s2 : HState} (h : add_count im_name raw s = some s2) :
    s.im_num < s.mean_count.length ∧ s.im_num < s.std_count.length ∧
    s.im_num < s.counts.length ∧
    s2.mean_count = s.mean_count.set s.im_num (bgMean s raw) ∧
    s2.std_count = s.std_count.set s.im_num (bgStdSq s raw) ∧
    s2.counts = s.counts.set s.im_num (roiSum s raw) := by
  simp only [add_count, Option.bind_eq_some, Option.map_eq_some'] at h
  obtain ⟨mc, hmc, sc, hsc, cs, hcs, fs, hfs, mxs, hmxs, xl, hxl, yl, hyl, hs2⟩ := h
  obtain ⟨hmc1, hmc2⟩ := setArr_eq_some hmc
  obtain ⟨hsc1, hsc2⟩ := setArr_eq_some hsc
  obtain ⟨hcs1, hcs2⟩ := setArr_eq_some hcs
  subst hs2
  exact ⟨hmc1, hsc1, hcs1, hmc2, hsc2, hcs2⟩

/-- `add_count` raises `IndexError` as soon as the first record array is
exhausted (its very first write is out of range). -/
theorem add_count_none_of_full {im_name : String} {raw : List (List ℚ)}
    {s : HState} (hfull : s.mean_count.length ≤ s.im_num) :
    add_count im_name raw s = none := by
  simp only [add_count]
  rw [setArr_none hfull]
  rfl

/-- Growing the arrays changes no scalar field. -/
theorem growArrays_fields (s : HState) :
    (growArrays s).thresh = s.thresh ∧ (growArrays s).n = s.n ∧
    (growArrays s).im_num = s.im_num ∧
    (growArrays s).mean_count.length = s.mean_count.length + s.n := by
  refine ⟨rfl, rfl, rfl, ?_⟩
  simp [growArrays]

/-! ## Claim C1 -/

/-- Claim C1 (code bug): the claim says that a `process` call on a handler
whose record arrays are exhausted grows the backing storage by a block and
stores the new record.  In the source the growth branch is guarded by
`im_num % (n - 10) == 0`, but exhaustion of arrays whose capacity is the
initial `n = 10000` happens at `im_num = 10000`, and
`10000 % 9990 = 10 ≠ 0`, so the guard is false at the moment the
`IndexError` fires: `process` retries `add_count` on the unchanged arrays
and the retry raises again — nothing is grown and the record is lost.
This theorem shows the failure for every exhausted state whose `im_num` is
not a multiple of `n - 10`, which includes every state actually reached by
filling the initial arrays. -/
theorem claim_C1_process_fails_at_capacity (im_name : String)
    (raw : List (List ℚ)) (s : HState)
    (hfull : s.mean_count.length ≤ s.im_num)
    (hmod : s.im_num % (s.n - 10) ≠ 0) :
    process im_name raw s = none := by
  have h1 : add_count im_name raw s = none := add_count_none_of_full hfull
  simp only [process, h1]
  rw [if_neg (by intro hc; exact hmod hc.1)]
  exact h1

/-- The failing input of claim C1: a fresh handler that has successfully
processed 10000 images, so that `im_num` equals the initial capacity. -/
def exhaustedHandler : HState :=
  { initHandler with im_num := 10000 }

/-- Witness for claim C1 at the concrete failing input: the `process` call
on the exhausted handler returns no state (the Python call raises
`IndexError`), instead of growing the arrays and storing the record. -/
theorem claim_C1_witness :
    process "Cs-133_160719_1.asc" [] exhaustedHandler = none :=
  claim_C1_process_fails_at_capacity "Cs-133_160719_1.asc" [] exhaustedHandler
    ((List.length_replicate 10000 (0 : ℚ)).le) (by decide)

/-! ## Claim C10 -/

/-- Claim C10 (confirmed): whenever the stored peak-index list does not
have exactly two entries, `get_fidelity` returns the in-band sentinel pair
`(-1, -1)` — a value outside the valid fidelity range `[0, 1]` — rather
than raising; the method reads only the peak model and mutates no state
(it is a pure function of the handler in this embedding, mirroring the
source, which assigns no attribute). -/
theorem claim_C10_get_fidelity_sentinel (cdf : ℚ → ℚ → ℚ → ℚ) (s : HState)
    (t : ℚ) (h : s.peak_indexes.length ≠ 2) :
    get_fidelity cdf s t = (-1, -1) ∧ ((-1 : ℚ) < 0 ∧ (-1 : ℚ) < 1) := by
  refine ⟨?_, by norm_num⟩
  simp [get_fidelity, h]

/-! ## Small concrete states and oracles used by witnesses -/

/-- A small handler state for witnesses: three record slots, the default
two-entry peak model, ROI of size 1 at the origin, `pic_size = 2`,
threshold 1 (all fields as `__init__` sets them, with capacity 3). -/
def tinyState : HState where
  n := 3
  counts := [0, 0, 0]
  max_count := [0, 0, 0]
  peak_indexes := [0, 0]
  peak_heights := [0, 0]
  peak_widths := [0, 0]
  peak_counts := [0, 0]
  fidelity := 0
  err_fidelity := 0
  mean_count := [0, 0, 0]
  std_count := [0, 0, 0]
  xc_list := [0, 0, 0]
  yc_list := [0, 0, 0]
  xc := 0
  yc := 0
  roi_size := 1
  pic_size := 2
  thresh := 1
  atom := [0, 0, 0]
  files := [none, none, none]
  im_num := 0
  im_vals := []
  bin_array := []

/-- Peak-search oracle reporting no peaks at all. -/
def fpNone : List ℕ → ℕ → PeakData := fun _ _ => ⟨[], [], []⟩

/-- Peak-search oracle reporting a single peak. -/
def fpOne : List ℕ → ℕ → PeakData := fun _ _ => ⟨[0], [1], [1]⟩

/-- A trivial normal-CDF oracle. -/
def cdfZero : ℚ → ℚ → ℚ → ℚ := fun _ _ _ => 0

/-- A rounding oracle that keeps the value (rounding plays no role in the
claims). -/
def idRnd : ℚ → ℚ := id

/-- Default element used to project out of an optional histogram result. -/
def histDefault (s : HState) : HState × List ℚ × List ℕ × ℚ := (s, [], [], 0)

/-- A handler state holding one peak only. -/
def onePeakState : HState := { tinyState with peak_indexes := [0] }

/-- Witness for claim C10: on a state whose peak-index list has a single
entry, `get_fidelity` returns the sentinel `(-1, -1)`. -/
theorem claim_C10_witness :
    get_fidelity cdfZero onePeakState 5 = (-1, -1) :=
  (claim_C10_get_fidelity_sentinel cdfZero onePeakState 5 (by decide)).1

/-! ## Claim C2 -/

/-- Entry `i < im_num` of the refreshed `atom` array is the floor division
of the stored count by the threshold. -/
theorem atomUpdate_getElem (s : HState) (i : ℕ) (c : ℚ) (hi : i < s.im_num)
    (hc : s.counts[i]? = some c) :
    (atomUpdate s)[i]? = some ((⌊c / s.thresh⌋ : ℤ) : ℚ) := by
  have hlen : i < s.counts.length := by
    by_contra hh
    push_neg at hh
    rw [List.getElem?_eq_none hh] at hc
    exact Option.noConfusion hc
  have hlt : i < ((s.counts.take s.im_num).map
      fun c => ((⌊c / s.thresh⌋ : ℤ) : ℚ)).length := by
    simp only [List.length_map, List.length_take]
    omega
  unfold atomUpdate
  rw [List.getElem?_append_left hlt, List.getElem?_map, List.getElem?_take,
    if_pos hi, hc]
  rfl

/-- Claim C2 (amended): after `histogram` refreshes the classifications,
entry `i < im_num` of `atom` holds the numpy floor division
`counts[i] // thresh` — not the boolean `counts[i] >= thresh` the claim
states.  For a positive threshold and a non-negative count the stored
value is zero exactly when `counts[i] < thresh` and at least 1 exactly
when `counts[i] >= thresh`, so atom presence is encoded by `atom[i] > 0`;
the stored value equals 1 only while `counts[i] < 2 * thresh`. -/
theorem claim_C2_atom_is_floor_division
    (fp : List ℕ → ℕ → PeakData) (fuel : ℕ) (s : HState)
    (r : HState × List ℚ × List ℕ × ℚ) (h : histogram fp fuel s = some r)
    (i : ℕ) (c : ℚ) (hi : i < s.im_num) (hc : s.counts[i]? = some c)
    (ht : 0 < s.thresh) (hcpos : 0 ≤ c) :
    r.1.atom[i]? = some ((⌊c / s.thresh⌋ : ℤ) : ℚ) ∧
    (((⌊c / s.thresh⌋ : ℤ) : ℚ) = 0 ↔ c < s.thresh) ∧
    (1 ≤ ((⌊c / s.thresh⌋ : ℤ) : ℚ) ↔ s.thresh ≤ c) := by
  refine ⟨?_, ?_, ?_⟩
  · simp only [histogram, Option.map_eq_some'] at h
    obtain ⟨pd, hpd, hr⟩ := h
    subst hr
    exact atomUpdate_getElem _ i c hi hc
  · rw [Int.cast_eq_zero, Int.floor_eq_zero_iff, Set.mem_Ico, div_lt_one ht]
    constructor
    · exact fun hx => hx.2
    · exact fun hx => ⟨div_nonneg hcpos ht.le, hx⟩
  · have hcast : (1 : ℚ) ≤ ((⌊c / s.thresh⌋ : ℤ) : ℚ) ↔
        (1 : ℤ) ≤ ⌊c / s.thresh⌋ := by exact_mod_cast Iff.rfl
    rw [hcast, Int.le_floor]
    push_cast
    exact one_le_div ht

/-- The handler state of the C2 counterexample: three stored counts
`[5, 30, 7]`, threshold 10, fixed histogram bins `[0, 100]`. -/
def floorDivState : HState :=
  { tinyState with
      counts := [5, 30, 7]
      im_num := 3
      thresh := 10
      bin_array := [0, 100] }

/-- Claim C2 counterexample: with counts `[5, 30, 7]` and threshold 10,
the refreshed `atom[1]` is `30 // 10 = 3`, although `counts[1] = 30` is
above the threshold — the claim would require the stored value 1. -/
theorem claim_C2_counterexample :
    ((histogram fpNone 1 floorDivState).getD
        (histDefault floorDivState)).1.atom[1]? = some 3 ∧
    (histogram fpNone 1 floorDivState).isSome = true ∧
    floorDivState.thresh ≤ floorDivState.counts.getD 1 0 ∧ (3 : ℚ) ≠ 1 := by
  refine ⟨?_, ?_, ?_, by norm_num⟩ <;>
    norm_num [histogram, histCounts, est_param, fpNone, atomUpdate,
      floorDivState, tinyState, histDefault, List.range_succ]

/-- Witness for the amended claim C2 on the counterexample state: the
stored classification is the floor division `⌊30 / 10⌋`, zero iff the
count is below threshold, at least 1 iff the count reaches it. -/
theorem claim_C2_witness :
    ((histogram fpNone 1 floorDivState).getD
        (histDefault floorDivState)).1.atom[1]? =
      some ((⌊(30 : ℚ) / (10 : ℚ)⌋ : ℤ) : ℚ) ∧
    (((⌊(30 : ℚ) / (10 : ℚ)⌋ : ℤ) : ℚ) = 0 ↔ (30 : ℚ) < 10) ∧
    (1 ≤ ((⌊(30 : ℚ) / (10 : ℚ)⌋ : ℤ) : ℚ) ↔ (10 : ℚ) ≤ 30) :=
  claim_C2_atom_is_floor_division fpNone 1 floorDivState
    ((histogram fpNone 1 floorDivState).getD (histDefault floorDivState))
    (by norm_num [histogram, histCounts, est_param, fpNone, atomUpdate,
      floorDivState, tinyState, histDefault, List.range_succ])
    1 30 (by decide) (by decide) (by decide) (by decide)

/-! ## Claim C3 -/

/-- A successful `histogram` call leaves `thresh`, `counts`, `im_num`,
`bin_array` and the capacity unchanged. -/
theorem histogram_some_fields {fp : List ℕ → ℕ → PeakData} {fuel : ℕ}
    {s : HState} {r : HState × List ℚ × List ℕ × ℚ}
    (h : histogram fp fuel s = some r) :
    r.1.thresh = s.thresh ∧ r.1.counts = s.counts ∧ r.1.im_num = s.im_num ∧
    r.1.bin_array = s.bin_array ∧ r.1.n = s.n := by
  simp only [histogram, Option.map_eq_some'] at h
  obtain ⟨pd, hpd, hr⟩ := h
  subst hr
  exact ⟨rfl, rfl, rfl, rfl, rfl⟩

/-- A scan step of `search_fidelity` rewrites at most the threshold: the
peak model it carries is untouched. -/
theorem searchStep_peaks (cdf : ℚ → ℚ → ℚ → ℚ) (acc : ℚ × ℚ × HState)
    (t : ℚ) :
    (searchStep cdf acc t).2.2.peak_indexes = acc.2.2.peak_indexes ∧
    (searchStep cdf acc t).2.2.peak_counts = acc.2.2.peak_counts ∧
    (searchStep cdf acc t).2.2.peak_widths = acc.2.2.peak_widths := by
  simp only [searchStep]
  split
  · exact ⟨rfl, rfl, rfl⟩
  · exact ⟨rfl, rfl, rfl⟩

/-- The whole scan of `search_fidelity` leaves the peak model unchanged. -/
theorem foldl_searchStep_peaks (cdf : ℚ → ℚ → ℚ → ℚ) :
    ∀ (ts : List ℚ) (acc : ℚ × ℚ × HState),
      (ts.foldl (searchStep cdf) acc).2.2.peak_indexes =
          acc.2.2.peak_indexes ∧
      (ts.foldl (searchStep cdf) acc).2.2.peak_counts =
          acc.2.2.peak_counts ∧
      (ts.foldl (searchStep cdf) acc).2.2.peak_widths =
          acc.2.2.peak_widths := by
  intro ts
  induction ts with
  | nil => intro acc; exact ⟨rfl, rfl, rfl⟩
  | cons t ts ih =>
    intro acc
    simp only [List.foldl_cons]
    obtain ⟨h1, h2, h3⟩ := ih (searchStep cdf acc t)
    obtain ⟨g1, g2, g3⟩ := searchStep_peaks cdf acc t
    exact ⟨h1.trans g1, h2.trans g2, h3.trans g3⟩

/-- `search_fidelity` does not touch the peak-index list. -/
theorem search_fidelity_peak_indexes (cdf : ℚ → ℚ → ℚ → ℚ) (rnd : ℚ → ℚ)
    (s : HState) (p1 p2 : ℚ) (n : ℕ) :
    (search_fidelity cdf rnd s p1 p2 n).peak_indexes = s.peak_indexes := by
  simp only [search_fidelity]
  exact (foldl_searchStep_peaks cdf (linspace p1 p2 n) (0, 0, s)).1

/-- Claim C3 (confirmed): when the peak search behind `hist_and_thresh`
reports fewer than two peaks, the call leaves the threshold exactly as it
was before the call. -/
theorem claim_C3_few_peaks_keep_thresh (cdf : ℚ → ℚ → ℚ → ℚ) (rnd : ℚ → ℚ)
    (fp : List ℕ → ℕ → PeakData) (fuel : ℕ) (s : HState)
    (r : HState × List ℚ × List ℕ × ℚ)
    (h : hist_and_thresh cdf rnd fp fuel s = some r)
    (hlt : r.1.peak_indexes.length < 2) :
    r.1.thresh = s.thresh := by
  simp only [hist_and_thresh, Option.map_eq_some'] at h
  obtain ⟨r0, hhist, hr⟩ := h
  by_cases h2 : r0.1.peak_indexes.length = 2
  · exfalso
    rw [← hr] at hlt
    simp only [if_pos h2, search_fidelity_peak_indexes] at hlt
    omega
  · rw [← hr]
    simp only [if_neg h2]
    exact (histogram_some_fields hhist).1

/-- Witness for claim C3: a concrete run whose peak search reports one
peak retains the threshold of `tinyState`. -/
theorem claim_C3_witness :
    ((hist_and_thresh cdfZero idRnd fpOne 1 tinyState).getD
        (histDefault tinyState)).1.thresh = tinyState.thresh :=
  claim_C3_few_peaks_keep_thresh cdfZero idRnd fpOne 1 tinyState
    ((hist_and_thresh cdfZero idRnd fpOne 1 tinyState).getD
      (histDefault tinyState))
    (by norm_num [hist_and_thresh, histogram, npHistogramAuto, linspace,
      histCounts, est_param, fpOne, atomUpdate, tinyState, histDefault,
      List.range_succ])
    (by norm_num [hist_and_thresh, histogram, npHistogramAuto, linspace,
      histCounts, est_param, fpOne, atomUpdate, tinyState, histDefault,
      List.range_succ])

/-! ## Claim C7 -/

/-- The parsed content of the Scenario B image file
`0 1 2 3 / 0 4 9 2 / 0 1 1 1 / 0 0 0 5` (rows separated by newlines);
the first column is the row index, stripped by `load_full_im`. -/
def rawScenarioB : List (List ℚ) :=
  [[0, 1, 2, 3], [0, 4, 9, 2], [0, 1, 1, 1], [0, 0, 0, 5]]

/-- The handler configured for Scenario B: `pic_size` taken from the file
by `set_pic_size`, ROI `(xc, yc, size) = (2, 1, 2)`. -/
def scenarioBState : HState :=
  { tinyState with
      pic_size := set_pic_size rawScenarioB
      xc := 2
      yc := 1
      roi_size := 2 }

/-- The Scenario B handler with the two centre coordinates exchanged:
`(xc, yc) = (1, 2)`. -/
def scenarioBSwapped : HState :=
  { tinyState with
      pic_size := set_pic_size rawScenarioB
      xc := 1
      yc := 2
      roi_size := 2 }

set_option maxRecDepth 10000 in
/-- Claim C7 counterexample: on the Scenario B image with ROI
`(center_x = 2, center_y = 1, size = 2)` — in the code's own convention
`xc` is the first (row) index, as `set_roi` maps `np.where`'s row indices
to `xc` — the stored signal is `4 + 9 + 1 + 1 = 15`, not the 16 the claim
asserts. -/
theorem claim_C7_counterexample :
    ((add_count "Cs-133_160719_7.asc" rawScenarioB scenarioBState).map
        fun s2 => s2.counts.getD 0 0).getD 99 = 15 ∧
    ((add_count "Cs-133_160719_7.asc" rawScenarioB scenarioBState).isSome
      = true) ∧
    (15 : ℚ) ≠ 16 := by
  refine ⟨?_, ?_, by norm_num⟩ <;>
    (norm_num [add_count, roiVals, notRoi, bgCount, bgMean, bgStdSq, roiSum,
      load_full_im, set_pic_size, roiBounds, pySlice, pyIdx, zeroRegion,
      zeroRow, npSum, npSize, npMax, findInMat, findInRow, setArr,
      scenarioBState, tinyState, rawScenarioB, Int.fdiv] <;>
      try simp) <;> try norm_num

set_option maxRecDepth 10000 in
/-- Claim C7 (amended): processing the Scenario B image with ROI
`(center_x = 2, center_y = 1, size = 2)` stores the signal 15 (the ROI
covers rows 1–2, columns 0–1 of the stripped grid); the spec's value 16 is
obtained with the centre coordinates exchanged, `(xc, yc) = (1, 2)` (rows
0–1, columns 1–2). -/
theorem claim_C7_roi_signal_is_fifteen :
    ((add_count "Cs-133_160719_7.asc" rawScenarioB scenarioBState).map
        fun s2 => s2.counts.getD 0 0).getD 99 = 15 ∧
    ((add_count "Cs-133_160719_7.asc" rawScenarioB scenarioBSwapped).map
        fun s2 => s2.counts.getD 0 0).getD 99 = 16 := by
  constructor <;>
    (norm_num [add_count, roiVals, notRoi, bgCount, bgMean, bgStdSq, roiSum,
      load_full_im, set_pic_size, roiBounds, pySlice, pyIdx, zeroRegion,
      zeroRow, npSum, npSize, npMax, findInMat, findInRow, setArr,
      scenarioBState, scenarioBSwapped, tinyState, rawScenarioB,
      Int.fdiv] <;> try simp) <;> try norm_num

/-! ## Claim C4 -/

/-- A step of the claim-C4 operation sequences: an `add_count` append, a
`process` append, or a manual `histogram()` rebuild (the refresh path that
does not recompute the threshold). -/
inductive HOp where
  | addCountOp : String → List (List ℚ) → HOp
  | processOp : String → List (List ℚ) → HOp
  | histogramOp : (List ℕ → ℕ → PeakData) → ℕ → HOp

/-- Run one operation on the handler state. -/
def runOp : HOp → HState → Option HState
  | .addCountOp im_name raw, s => add_count im_name raw s
  | .processOp im_name raw, s => process im_name raw s
  | .histogramOp fp fuel, s => (histogram fp fuel s).map (·.1)

/-- Run a finite sequence of operations, stopping at the first failure. -/
def runOps : List HOp → HState → Option HState
  | [], s => some s
  | op :: ops, s => (runOp op s).bind (runOps ops)

/-- A successful `process` call never touches the threshold. -/
theorem process_some_thresh {im_name : String} {raw : List (List ℚ)}
    {s s2 : HState} (h : process im_name raw s = some s2) :
    s2.thresh = s.thresh := by
  cases hadd : add_count im_name raw s with
  | some s1 =>
    simp only [process, hadd] at h
    exact (Option.some.inj h) ▸ (add_count_some_fields hadd).1
  | none =>
    simp only [process, hadd] at h
    split at h
    · exact (add_count_some_fields h).1
    · exact (add_count_some_fields h).1

/-- No single operation of a claim-C4 sequence writes to `thresh`. -/
theorem runOp_thresh {op : HOp} {s s2 : HState} (h : runOp op s = some s2) :
    s2.thresh = s.thresh := by
  cases op with
  | addCountOp im_name raw => exact (add_count_some_fields h).1
  | processOp im_name raw => exact process_some_thresh h
  | histogramOp fp fuel =>
    simp only [runOp, Option.map_eq_some'] at h
    obtain ⟨r, hr, hr1⟩ := h
    exact hr1 ▸ (histogram_some_fields hr).1

/-- Claim C4 (confirmed): a finite sequence of appends (`add_count` or
`process`) and manual `histogram()` rebuilds never changes the threshold —
a manually set threshold survives the manual refresh path verbatim. -/
theorem claim_C4_thresh_invariant_under_append_and_histogram :
    ∀ (ops : List HOp) (s s2 : HState),
      runOps ops s = some s2 → s2.thresh = s.thresh := by
  intro ops
  induction ops with
  | nil =>
    intro s s2 h
    simp only [runOps] at h
    exact (Option.some.inj h) ▸ rfl
  | cons op ops ih =>
    intro s s2 h
    simp only [runOps, Option.bind_eq_some] at h
    obtain ⟨s1, h1, h2⟩ := h
    exact (ih s1 s2 h2).trans (runOp_thresh h1)

/-- A small parsed image used by the witness runs. -/
def rawTinyIm : List (List ℚ) := [[0, 1, 2], [0, 3, 4]]

/-- The handler state of the C4 witness: fixed histogram bins, so the
manual rebuild path is exercised. -/
def opsState : HState := { tinyState with bin_array := [0, 100] }

/-- The concrete operation sequence of the C4 witness: an `add_count`
append followed by a manual histogram rebuild. -/
def opsC4 : List HOp :=
  [HOp.addCountOp "a_1.asc" rawTinyIm, HOp.histogramOp fpNone 1]

set_option maxHeartbeats 4000000 in
set_option maxRecDepth 10000 in
/-- Witness for claim C4: a concrete sequence of two appends and a manual
histogram rebuild leaves the threshold of `opsState` at 1. -/
theorem claim_C4_witness :
    ((runOps opsC4 opsState).getD opsState).thresh = opsState.thresh :=
  claim_C4_thresh_invariant_under_append_and_histogram opsC4 opsState
    ((runOps opsC4 opsState).getD opsState)
    (by (norm_num [runOps, runOp, opsC4, histogram, npHistogramAuto, linspace,
      histCounts, est_param, fpNone, atomUpdate, add_count, process, roiVals,
      notRoi, bgCount, bgMean, bgStdSq, roiSum, load_full_im, roiBounds,
      pySlice, pyIdx, zeroRegion, zeroRow, npSum, npSize, npMax, findInMat,
      findInRow, setArr, opsState, tinyState, rawTinyIm, List.range_succ,
      Int.fdiv] <;> try simp) <;> try norm_num)

/-! ## Claim C5 -/

/-- The fidelity of a candidate threshold: specification-side shorthand for
the first component of `get_fidelity`. -/
def fidAt (cdf : ℚ → ℚ → ℚ → ℚ) (s : HState) (t : ℚ) : ℚ :=
  (get_fidelity cdf s t).1

/-- The maximum fidelity over the scan grid, floored at the scan's initial
best-so-far value 0. -/
def bestFid (cdf : ℚ → ℚ → ℚ → ℚ) (s : HState) (p1 p2 : ℚ) (n : ℕ) : ℚ :=
  (linspace p1 p2 n).foldl (fun m t => max m (fidAt cdf s t)) 0

/-- The first grid candidate attaining the maximum fidelity. -/
def firstBestThresh (cdf : ℚ → ℚ → ℚ → ℚ) (s : HState) (p1 p2 : ℚ)
    (n : ℕ) : Option ℚ :=
  (linspace p1 p2 n).find? fun t =>
    decide (fidAt cdf s t = bestFid cdf s p1 p2 n)

/-- `get_fidelity` reads only the peak model, never the threshold. -/
theorem get_fidelity_peaks_congr (cdf : ℚ → ℚ → ℚ → ℚ) {a b : HState}
    (h1 : a.peak_indexes = b.peak_indexes)
    (h2 : a.peak_counts = b.peak_counts)
    (h3 : a.peak_widths = b.peak_widths) (t : ℚ) :
    get_fidelity cdf a t = get_fidelity cdf b t := by
  simp only [get_fidelity, h1, h2, h3]

/-- The initial accumulator never exceeds the running maximum. -/
theorem le_foldl_max (F : ℚ → ℚ) :
    ∀ (ts : List ℚ) (f : ℚ), f ≤ ts.foldl (fun m t => max m (F t)) f := by
  intro ts
  induction ts with
  | nil => intro f; exact le_refl f
  | cons t ts ih =>
    intro f
    exact le_trans (le_max_left f (F t)) (ih (max f (F t)))

/-- Behaviour of the `search_fidelity` scan, for any initial best-so-far
`f`: if no candidate's fidelity strictly exceeds `f`, the whole accumulator
is returned unchanged; if some candidate exceeds `f`, the final threshold
is the first candidate attaining the running maximum (the strictly-greater
comparison keeps the first occurrence). -/
theorem foldl_searchStep_spec (cdf : ℚ → ℚ → ℚ → ℚ) (s0 : HState) :
    ∀ (ts : List ℚ) (f e : ℚ) (st : HState),
      st.peak_indexes = s0.peak_indexes →
      st.peak_counts = s0.peak_counts →
      st.peak_widths = s0.peak_widths →
      ((ts.foldl (fun m t => max m (fidAt cdf s0 t)) f ≤ f →
          ts.foldl (searchStep cdf) (f, e, st) = (f, e, st)) ∧
        (f < ts.foldl (fun m t => max m (fidAt cdf s0 t)) f →
          ∃ t, ts.find? (fun u => decide (fidAt cdf s0 u =
                ts.foldl (fun m t => max m (fidAt cdf s0 t)) f)) = some t ∧
            (ts.foldl (searchStep cdf) (f, e, st)).2.2.thresh = t)) := by
  intro ts
  induction ts with
  | nil =>
    intro f e st h1 h2 h3
    exact ⟨fun _ => rfl, fun hlt => absurd hlt (lt_irrefl f)⟩
  | cons t ts ih =>
    intro f e st h1 h2 h3
    have hF : (get_fidelity cdf st t).1 = fidAt cdf s0 t := by
      unfold fidAt
      rw [get_fidelity_peaks_congr cdf h1 h2 h3]
    simp only [List.foldl_cons]
    by_cases hlt : f < fidAt cdf s0 t
    · have hstep : searchStep cdf (f, e, st) t =
          (fidAt cdf s0 t, (get_fidelity cdf st t).2,
            { st with thresh := t }) := by
        simp only [searchStep]
        rw [if_pos (by rw [hF]; exact hlt), hF]
      rw [hstep]
      have hmax : max f (fidAt cdf s0 t) = fidAt cdf s0 t :=
        max_eq_right hlt.le
      simp only [hmax]
      obtain ⟨ihB, ihC⟩ := ih (fidAt cdf s0 t) (get_fidelity cdf st t).2
        ({ st with thresh := t }) h1 h2 h3
      constructor
      · intro hle
        have : f < f := lt_of_lt_of_le hlt
          (le_trans (le_foldl_max (fidAt cdf s0) ts (fidAt cdf s0 t)) hle)
        exact absurd this (lt_irrefl f)
      · intro _
        rcases lt_or_eq_of_le
            (le_foldl_max (fidAt cdf s0) ts (fidAt cdf s0 t)) with hFM | hFM
        · obtain ⟨u, hfind, hth⟩ := ihC hFM
          refine ⟨u, ?_, hth⟩
          rw [List.find?_cons_of_neg]
          · exact hfind
          · simp only [decide_eq_true_eq]
            exact ne_of_lt hFM
        · refine ⟨t, ?_, ?_⟩
          · exact List.find?_cons_of_pos _
              (by simp only [decide_eq_true_eq]; exact hFM)
          · rw [ihB (le_of_eq hFM.symm)]
    · have hstep : searchStep cdf (f, e, st) t = (f, e, st) := by
        simp only [searchStep]
        rw [if_neg (by rw [hF]; exact hlt)]
      rw [hstep]
      have hmax : max f (fidAt cdf s0 t) = f := max_eq_left (not_lt.mp hlt)
      simp only [hmax]
      obtain ⟨ihB, ihC⟩ := ih f e st h1 h2 h3
      refine ⟨ihB, ?_⟩
      intro hpos
      obtain ⟨u, hfind, hth⟩ := ihC hpos
      refine ⟨u, ?_, hth⟩
      rw [List.find?_cons_of_neg]
      · exact hfind
      · simp only [decide_eq_true_eq]
        exact ne_of_lt (lt_of_le_of_lt (not_lt.mp hlt) hpos)

/-- The threshold `search_fidelity` produces: unchanged when no candidate
has positive fidelity, and otherwise the first candidate attaining the
maximum fidelity. -/
theorem search_fidelity_thresh_spec (cdf : ℚ → ℚ → ℚ → ℚ) (rnd : ℚ → ℚ)
    (s : HState) (p1 p2 : ℚ) (n : ℕ) :
    (bestFid cdf s p1 p2 n ≤ 0 →
        (search_fidelity cdf rnd s p1 p2 n).thresh = s.thresh) ∧
    (0 < bestFid cdf s p1 p2 n →
        ∃ t, firstBestThresh cdf s p1 p2 n = some t ∧
          (search_fidelity cdf rnd s p1 p2 n).thresh = t) := by
  obtain ⟨hB, hC⟩ :=
    foldl_searchStep_spec cdf s (linspace p1 p2 n) 0 0 s rfl rfl rfl
  constructor
  · intro hle
    have h0 := hB hle
    simp only [search_fidelity]
    rw [h0]
  · intro hpos
    obtain ⟨t, hfind, hth⟩ := hC hpos
    refine ⟨t, hfind, ?_⟩
    simp only [search_fidelity]
    exact hth

/-- Claim C5 (amended): `search_fidelity` evaluates the fidelity at the
`n` equally spaced candidates of `np.linspace p1 p2 n`, which *include*
both endpoints `p1` and `p2` (the claim's "strictly between" is wrong);
when some candidate has positive fidelity it sets the threshold to the
first candidate attaining the maximum fidelity (the strictly-greater
comparison keeps the first occurrence, as the claim says), and when no
candidate beats the initial best-so-far of 0 the threshold is left
unchanged. -/
theorem claim_C5_scan_endpoints_and_first_max (cdf : ℚ → ℚ → ℚ → ℚ)
    (rnd : ℚ → ℚ) (s : HState) (p1 p2 : ℚ) (n : ℕ) (hn : 2 ≤ n) :
    (linspace p1 p2 n).length = n ∧
    p1 ∈ linspace p1 p2 n ∧ p2 ∈ linspace p1 p2 n ∧
    (0 < bestFid cdf s p1 p2 n →
      ∃ t, firstBestThresh cdf s p1 p2 n = some t ∧
        (search_fidelity cdf rnd s p1 p2 n).thresh = t) ∧
    (bestFid cdf s p1 p2 n ≤ 0 →
      (search_fidelity cdf rnd s p1 p2 n).thresh = s.thresh) := by
  have hne : n ≠ 1 := by omega
  have hcast : ((n : ℚ) - 1) ≠ 0 := by
    have h2 : (2 : ℚ) ≤ (n : ℚ) := by exact_mod_cast hn
    linarith
  refine ⟨?_, ?_, ?_, (search_fidelity_thresh_spec cdf rnd s p1 p2 n).2,
    (search_fidelity_thresh_spec cdf rnd s p1 p2 n).1⟩
  · simp only [linspace, if_neg hne]
    rw [List.length_map, List.length_range]
  · simp only [linspace, if_neg hne]
    refine List.mem_map.mpr ⟨0, ?_, ?_⟩
    · exact List.mem_range.mpr (by omega)
    · push_cast
      ring
  · simp only [linspace, if_neg hne]
    refine List.mem_map.mpr ⟨n - 1, ?_, ?_⟩
    · exact List.mem_range.mpr (by omega)
    · have hc : ((n - 1 : ℕ) : ℚ) = (n : ℚ) - 1 := by
        push_cast [Nat.cast_sub (by omega : 1 ≤ n)]
        ring
      rw [hc, mul_div_assoc, div_self hcast]
      ring

/-- A handler state with a two-peak model: background peak at 0, signal
peak at 9, both of width 1. -/
def twoPeakState : HState :=
  { tinyState with
      peak_indexes := [0, 1]
      peak_counts := [0, 9]
      peak_widths := [1, 1] }

/-- A CDF oracle whose induced fidelity is 1 at the candidate 3 and 0 at
every other candidate of the scan from 0 to 9. -/
def cdfSpike : ℚ → ℚ → ℚ → ℚ :=
  fun t m _ => if t = 3 ∧ m = 0 then 1 else 0

/-- A CDF oracle whose induced fidelity is 1 at every candidate. -/
def cdfFlat : ℚ → ℚ → ℚ → ℚ :=
  fun _ m _ => if m = 0 then 1 else 0

/-- Claim C5 counterexample: with a fidelity of 1 at every scanned
candidate, the first strict improvement happens at the very first
candidate, `p1 = 0` itself — so the scan evaluates (and can select) the
endpoint, which is not strictly between `p1 = 0` and `p2 = 9` as the
claim asserts. -/
theorem claim_C5_counterexample :
    (search_fidelity cdfFlat idRnd twoPeakState 0 9 10).thresh = 0 ∧
    ¬(0 < (search_fidelity cdfFlat idRnd twoPeakState 0 9 10).thresh ∧
        (search_fidelity cdfFlat idRnd twoPeakState 0 9 10).thresh < 9) := by
  have h : (search_fidelity cdfFlat idRnd twoPeakState 0 9 10).thresh = 0 := by
    norm_num [search_fidelity, searchStep, get_fidelity, cdfFlat,
      twoPeakState, tinyState, linspace, List.range_succ, idRnd]
  refine ⟨h, ?_⟩
  rw [h]
  norm_num

/-- Witness for the amended claim C5: with fidelity 1 only at the
candidate 3, the maximum scan fidelity is positive, the first maximiser is
3, and `search_fidelity` sets the threshold to 3. -/
theorem claim_C5_witness :
    (0 : ℚ) < bestFid cdfSpike twoPeakState 0 9 10 ∧
    firstBestThresh cdfSpike twoPeakState 0 9 10 = some 3 ∧
    (search_fidelity cdfSpike idRnd twoPeakState 0 9 10).thresh = 3 := by
  have hM : (0 : ℚ) < bestFid cdfSpike twoPeakState 0 9 10 := by
    norm_num [bestFid, fidAt, get_fidelity, cdfSpike, twoPeakState,
      tinyState, linspace, List.range_succ]
  have hfind : firstBestThresh cdfSpike twoPeakState 0 9 10 = some 3 := by
    norm_num [firstBestThresh, bestFid, fidAt, get_fidelity, cdfSpike,
      twoPeakState, tinyState, linspace, List.range_succ, List.find?]
  obtain ⟨t, hfind2, hth⟩ :=
    (claim_C5_scan_endpoints_and_first_max cdfSpike idRnd twoPeakState 0 9 10
      (by norm_num)).2.2.2.1 hM
  have ht : t = 3 := Option.some.inj (hfind2.symm.trans hfind)
  exact ⟨hM, hfind, ht ▸ hth⟩

/-! ## Claim C6 -/

/-- The arithmetic mean, following the spec's wording. -/
def sampleMean (xs : List ℚ) : ℚ := xs.sum / (xs.length : ℚ)

/-- The sample variance with divisor `N - 1` — the square of the spec's
sample standard deviation. -/
def sampleVariance (xs : List ℚ) : ℚ :=
  (xs.map fun v => (v - sampleMean xs) ^ 2).sum / ((xs.length : ℚ) - 1)

/-- The part of a row outside the column window `[a, b)` (bounds already
`pyIdx`-normalised). -/
def keepRow (a b : ℕ) (row : List ℚ) : List ℚ :=
  row.take a ++ row.drop (max a b)

/-- The pixels of `m` outside the rectangle `[r0:r1, c0:c1]`, in row-major
order: the complement of the ROI within the full image, as the spec
describes it. -/
def roiComplement (m : List (List ℚ)) (r0 r1 c0 c1 : ℤ) : List ℚ :=
  let ra := pyIdx m.length r0
  let rb := pyIdx m.length r1
  (m.take ra).flatten ++
    (((m.drop ra).take (rb - ra)).map
      (fun row => keepRow (pyIdx row.length c0) (pyIdx row.length c1)
        row)).flatten ++
    (m.drop (max ra rb)).flatten

/-- The complement of the ROI of the state `s` within the image parsed
from `raw`. -/
def backgroundPixels (s : HState) (raw : List (List ℚ)) : List ℚ :=
  let full_im := load_full_im s.pic_size raw
  let b := roiBounds s
  roiComplement full_im b.1 b.2.1 b.2.2.1 b.2.2.2

theorem zeroRow_sum (a b : ℕ) (row : List ℚ) :
    (zeroRow a b row).sum = (keepRow a b row).sum := by
  simp [zeroRow, keepRow, List.sum_append, List.sum_replicate]

theorem filter_pos_replicate_zero (k : ℕ) :
    (List.replicate k (0 : ℚ)).filter (fun v => decide (0 < v)) = [] := by
  induction k with
  | zero => rfl
  | succ k ih => simp [List.replicate_succ, List.filter_cons, ih]

theorem zeroRow_filter (a b : ℕ) (row : List ℚ) :
    (zeroRow a b row).filter (fun v => decide (0 < v)) =
      (keepRow a b row).filter (fun v => decide (0 < v)) := by
  simp [zeroRow, keepRow, List.filter_append, filter_pos_replicate_zero]

theorem take_middle_drop {α : Type} (l : List α) (a b : ℕ) :
    l.take a ++ (l.drop a).take (b - a) ++ l.drop (max a b) = l := by
  rcases Nat.le_total a b with hab | hba
  · rw [max_eq_right hab]
    have hd : (l.drop a).drop (b - a) = l.drop b := by
      rw [List.drop_drop]
      congr 1
      omega
    calc l.take a ++ (l.drop a).take (b - a) ++ l.drop b
        = l.take a ++ ((l.drop a).take (b - a) ++ (l.drop a).drop (b - a)) := by
          rw [List.append_assoc, hd]
      _ = l.take a ++ l.drop a := by rw [List.take_append_drop]
      _ = l := List.take_append_drop a l
  · rw [max_eq_left hba]
    have hb0 : b - a = 0 := by omega
    rw [hb0]
    simp [List.take_append_drop]

/-- Zeroing the ROI rectangle does not change the total: the sum over the
zeroed image is the sum over the complement pixels. -/
theorem zeroRegion_sum (m : List (List ℚ)) (r0 r1 c0 c1 : ℤ) :
    npSum (zeroRegion m r0 r1 c0 c1) = (roiComplement m r0 r1 c0 c1).sum := by
  simp only [npSum, zeroRegion, roiComplement, List.flatten_append,
    List.sum_append]
  congr 2
  rw [List.sum_flatten, List.sum_flatten, List.map_map, List.map_map]
  exact congrArg List.sum (List.map_congr_left fun row _ => zeroRow_sum _ _ row)

/-- The strictly positive entries of the zeroed image are exactly the
strictly positive complement pixels. -/
theorem zeroRegion_filter (m : List (List ℚ)) (r0 r1 c0 c1 : ℤ) :
    (zeroRegion m r0 r1 c0 c1).flatten.filter (fun v => decide (0 < v)) =
      (roiComplement m r0 r1 c0 c1).filter (fun v => decide (0 < v)) := by
  simp only [zeroRegion, roiComplement, List.flatten_append,
    List.filter_append]
  congr 2
  rw [List.filter_flatten, List.filter_flatten, List.map_map, List.map_map]
  exact congrArg List.flatten
    (List.map_congr_left fun row _ => zeroRow_filter _ _ row)

theorem keepRow_slice_length (row : List ℚ) (c0 c1 : ℤ) :
    (keepRow (pyIdx row.length c0) (pyIdx row.length c1) row).length +
      (pySlice row c0 c1).length = row.length := by
  have h0 : pyIdx row.length c0 ≤ row.length := min_le_right _ _
  have h1 : pyIdx row.length c1 ≤ row.length := min_le_right _ _
  simp only [keepRow, pySlice, List.length_append, List.length_take,
    List.length_drop]
  omega

theorem window_length_split (c0 c1 : ℤ) :
    ∀ (rows : List (List ℚ)),
      ((rows.map (fun row => keepRow (pyIdx row.length c0)
          (pyIdx row.length c1) row)).map List.length).sum +
        ((rows.map (fun row => pySlice row c0 c1)).map List.length).sum =
        ((rows.map List.length).sum : ℕ) := by
  intro rows
  induction rows with
  | nil => simp
  | cons row rows ih =>
    simp only [List.map_cons, List.sum_cons]
    have h := keepRow_slice_length row c0 c1
    omega

/-- The complement pixel count plus the ROI pixel count is the image pixel
count. -/
theorem roiComplement_length (m : List (List ℚ)) (r0 r1 c0 c1 : ℤ) :
    (roiComplement m r0 r1 c0 c1).length +
      npSize ((pySlice m r0 r1).map fun row => pySlice row c0 c1) =
      npSize m := by
  rw [show pySlice m r0 r1 = (m.drop (pyIdx m.length r0)).take
    (pyIdx m.length r1 - pyIdx m.length r0) from rfl]
  simp only [roiComplement, npSize, List.flatten_append,
    List.length_append, List.length_flatten, List.map_map]
  conv_rhs => rw [← take_middle_drop m (pyIdx m.length r0) (pyIdx m.length r1)]
  simp only [List.map_append, List.sum_append]
  have h := window_length_split c0 c1
    ((m.drop (pyIdx m.length r0)).take (pyIdx m.length r1 - pyIdx m.length r0))
  simp only [List.map_map] at h
  omega

/-- Claim C6 (amended): for every image and ROI, the stored
`background_mean` is indeed the arithmetic mean of the complement of the
ROI within the full image — that half of the claim holds.  The stored
`background_std`, however, is the square root of the squared deviations of
only the *strictly positive* complement pixels (zero-valued background
pixels are dropped by the filter `not_roi[not_roi > 0]`), divided by
`N - 1` where `N` counts all complement pixels; it equals the claimed
sample standard deviation exactly when every complement pixel is strictly
positive. -/
theorem claim_C6_background_mean_and_filtered_std (im_name : String)
    (raw : List (List ℚ)) (s s2 : HState)
    (h : add_count im_name raw s = some s2) :
    s2.mean_count[s.im_num]? = some (sampleMean (backgroundPixels s raw)) ∧
    s2.std_count[s.im_num]? = some
      ((((backgroundPixels s raw).filter fun v => decide (0 < v)).map
          fun v => (v - sampleMean (backgroundPixels s raw)) ^ 2).sum /
        (((backgroundPixels s raw).length : ℚ) - 1)) ∧
    ((∀ v ∈ backgroundPixels s raw, 0 < v) →
      s2.std_count[s.im_num]? =
        some (sampleVariance (backgroundPixels s raw))) := by
  obtain ⟨hm1, hs1, _, hmc, hsc, _⟩ := add_count_some_stored h
  have hsum : npSum (notRoi s raw) = (backgroundPixels s raw).sum := by
    simp only [notRoi, backgroundPixels]
    exact zeroRegion_sum _ _ _ _ _
  have hN : bgCount s raw = (backgroundPixels s raw).length := by
    have hlen := roiComplement_length (load_full_im s.pic_size raw)
      (roiBounds s).1 (roiBounds s).2.1 (roiBounds s).2.2.1 (roiBounds s).2.2.2
    simp only [bgCount, roiVals, backgroundPixels]
    omega
  have hmean : bgMean s raw = sampleMean (backgroundPixels s raw) := by
    simp only [bgMean, sampleMean, hsum, hN]
  have hfil : (notRoi s raw).flatten.filter (fun v => decide (0 < v)) =
      (backgroundPixels s raw).filter (fun v => decide (0 < v)) := by
    simp only [notRoi, backgroundPixels]
    exact zeroRegion_filter _ _ _ _ _
  have hstd : bgStdSq s raw =
      (((backgroundPixels s raw).filter fun v => decide (0 < v)).map
          fun v => (v - sampleMean (backgroundPixels s raw)) ^ 2).sum /
        (((backgroundPixels s raw).length : ℚ) - 1) := by
    simp only [bgStdSq, hfil, hmean, hN]
  have h2 : s2.std_count[s.im_num]? = some
      ((((backgroundPixels s raw).filter fun v => decide (0 < v)).map
          fun v => (v - sampleMean (backgroundPixels s raw)) ^ 2).sum /
        (((backgroundPixels s raw).length : ℚ) - 1)) := by
    rw [hsc, List.getElem?_set_eq_of_lt _ hs1, hstd]
  refine ⟨?_, h2, ?_⟩
  · rw [hmc, List.getElem?_set_eq_of_lt _ hm1, hmean]
  · intro hpos
    have hself : (backgroundPixels s raw).filter (fun v => decide (0 < v)) =
        backgroundPixels s raw :=
      List.filter_eq_self.mpr fun a ha => by simpa using hpos a ha
    rw [h2, hself]
    rfl

/-- The handler of the C6 concrete runs: a 2×2 image (after stripping the
row-index column), ROI of size 1 centred at pixel `(1, 1)`. -/
def roiState : HState :=
  { tinyState with
      pic_size := 2
      xc := 1
      yc := 1 }

/-- A raw image whose background contains a zero-valued pixel: the
stripped grid is `[[0, 1], [2, 3]]`. -/
def rawZeroBg : List (List ℚ) := [[99, 0, 1], [99, 2, 3]]

/-- A raw image with an all-positive background: the stripped grid is
`[[5, 1], [2, 3]]`. -/
def rawPosBg : List (List ℚ) := [[9, 5, 1], [9, 2, 3]]

set_option maxRecDepth 10000 in
/-- Claim C6 counterexample: on the image `[[0, 1], [2, 3]]` with the ROI
covering the single pixel `3`, the complement is `[0, 1, 2]` with mean 1;
the claimed sample variance is `((0-1)² + (1-1)² + (2-1)²) / 2 = 1`, but
the code drops the zero-valued background pixel from the deviation sum and
stores `((1-1)² + (2-1)²) / 2 = 1/2` under the square root — the stored
standard deviation is `√(1/2)`, not the claimed `√1`. -/
theorem claim_C6_counterexample :
    ((add_count "b_1.asc" rawZeroBg roiState).map
        fun s2 => s2.std_count.getD 0 0).getD 99 = 1 / 2 ∧
    sampleVariance (backgroundPixels roiState rawZeroBg) = 1 ∧
    ((add_count "b_1.asc" rawZeroBg roiState).isSome = true) ∧
    Real.sqrt (1 / 2) ≠ Real.sqrt 1 := by
  refine ⟨?_, ?_, ?_, ?_⟩
  · (norm_num [add_count, roiVals, notRoi, bgCount, bgMean, bgStdSq, roiSum,
      load_full_im, roiBounds, pySlice, pyIdx, zeroRegion, zeroRow, npSum,
      npSize, npMax, findInMat, findInRow, setArr, roiState, tinyState,
      rawZeroBg, Int.fdiv] <;> try simp) <;> try norm_num
  · (norm_num [sampleVariance, sampleMean, backgroundPixels, roiComplement,
      keepRow, load_full_im, roiBounds, pyIdx, roiState, tinyState,
      rawZeroBg, Int.fdiv] <;> try simp) <;> try norm_num
  · (norm_num [add_count, roiVals, notRoi, bgCount, bgMean, bgStdSq, roiSum,
      load_full_im, roiBounds, pySlice, pyIdx, zeroRegion, zeroRow, npSum,
      npSize, npMax, findInMat, findInRow, setArr, roiState, tinyState,
      rawZeroBg, Int.fdiv] <;> try simp) <;> try norm_num
  · have hlt : Real.sqrt (1 / 2) < Real.sqrt 1 :=
      Real.sqrt_lt_sqrt (by norm_num) (by norm_num)
    exact ne_of_lt hlt

set_option maxHeartbeats 2000000 in
set_option maxRecDepth 10000 in
/-- Witness for the amended claim C6: on an image whose background pixels
are all strictly positive, the stored mean is the complement mean and the
stored radicand is the claimed sample variance. -/
theorem claim_C6_witness :
    ((add_count "b_1.asc" rawPosBg roiState).getD roiState).mean_count[0]? =
      some (sampleMean (backgroundPixels roiState rawPosBg)) ∧
    ((add_count "b_1.asc" rawPosBg roiState).getD roiState).std_count[0]? =
      some (sampleVariance (backgroundPixels roiState rawPosBg)) := by
  obtain ⟨h1, _, h3⟩ := claim_C6_background_mean_and_filtered_std
    "b_1.asc" rawPosBg roiState
    ((add_count "b_1.asc" rawPosBg roiState).getD roiState)
    (by (norm_num [add_count, roiVals, notRoi, bgCount, bgMean, bgStdSq,
      roiSum, load_full_im, roiBounds, pySlice, pyIdx, zeroRegion, zeroRow,
      npSum, npSize, npMax, findInMat, findInRow, setArr, roiState,
      tinyState, rawPosBg, Int.fdiv] <;> try simp) <;> try norm_num)
  refine ⟨h1, h3 ?_⟩
  (norm_num [backgroundPixels, roiComplement, keepRow, load_full_im,
    roiBounds, pyIdx, roiState, tinyState, rawPosBg, Int.fdiv] <;>
    try simp) <;> try norm_num
